import Mathlib

/-!
Verification of the refresh/aggregation core of `battlebit-stats`
(`src/app.rs`).  The aggregation functions (`region_count`, `map_count`,
`player_count`, `gamemode_count`), the gamemode labeling function
(`gamemode_to_string`), the component update state machine (`update`) and the
ranking pipeline of `view` are embedded as Lean functions.  The `HashMap`
contents are modelled as association lists with distinct keys (the key/value
content is what a `HashMap` determines; its iteration order is arbitrary, which
the theorems about the ranking pipeline take into account by quantifying over
permutations).  The `BTreeMap` built inside `view` is modelled as a key-sorted
association list with replacing insert, which is exactly the content and the
iteration order of a `BTreeMap`.
-/

set_option maxHeartbeats 1000000

namespace BattlebitStats

/-- Modelled from the spec: the `Gamemode` enum of the external `battlebit_api`
crate (the crate is not part of this repository's sources; only its seven
variant names used in `src/app.rs` are visible there).  §3 of the spec calls it
"one of a fixed closed set of gamemode variants"; the variants beyond the seven
specially-labeled ones stand for "any other variant — present or future". -/
inductive Gamemode where
  | InfanteryConquest
  | TeamDeathmatch
  | CaptureTheFlag
  | VoxelFortify
  | VoxelTrench
  | FreeForAll
  | Gamemode19
  | Domination
  | Rush
  | Frontline
  deriving DecidableEq

/-- Modelled from the spec: the default textual representation of a gamemode
variant (Rust's `gamemode.to_string()` from the external crate), "that
variant's own default textual representation", i.e. its canonical name; per
§4.1 it "must never fail or produce an empty string". -/
def Gamemode.toString : Gamemode → String
  | .InfanteryConquest => "InfanteryConquest"
  | .TeamDeathmatch => "TeamDeathmatch"
  | .CaptureTheFlag => "CaptureTheFlag"
  | .VoxelFortify => "VoxelFortify"
  | .VoxelTrench => "VoxelTrench"
  | .FreeForAll => "FreeForAll"
  | .Gamemode19 => "Gamemode19"
  | .Domination => "Domination"
  | .Rush => "Rush"
  | .Frontline => "Frontline"

/-- Modelled from the spec: the `ServerData` record of the external
`battlebit_api` crate (§3 of the spec): `region` and `map` are string
identifiers, `gamemode` is a `Gamemode`, and the two player counts are
non-negative integers.  The Rust getters `region()`, `map()`,
`player_count()`, `queued_player_count()`, `gamemode()` are field accesses
here. -/
structure ServerData where
  region : String
  map : String
  gamemode : Gamemode
  player_count : Nat
  queued_player_count : Nat
  deriving DecidableEq

/-- The component messages (`enum Msg` in `src/app.rs`). -/
inductive Msg where
  | UpdateData
  | Updated (data : List ServerData)
  | UpdateFailed
  deriving DecidableEq

/-- A pending one-shot timer (`gloo::timers::callback::Timeout`): the delay in
milliseconds and the message its callback sends.  Dropping / replacing the
handle cancels the timer, so an `Option Timeout` field holds at most one
pending timer. -/
structure Timeout where
  millis : Nat
  msg : Msg
  deriving DecidableEq

/-- The component state (`struct App` in `src/app.rs`): the current snapshot
and the handle of the pending refresh timer, if any. -/
structure App where
  server_data : List ServerData
  timer_handle : Option Timeout
  deriving DecidableEq

/-- Content model of the `HashMap<String, usize>` update pattern used by all
three counting folds in `src/app.rs`: `match counts.get_mut(k) { Some(val) =>
*val += 1, None => counts.insert(k, 1) }`.  On an association list with
distinct keys this bumps the entry for `k` or appends a fresh `(k, 1)`
entry. -/
def incr : List (String × Nat) → String → List (String × Nat)
  | [], k => [(k, 1)]
  | (k', v) :: rest, k =>
    if k' = k then (k', v + 1) :: rest else (k', v) :: incr rest k

/-- Key lookup on the association list, the content of `HashMap::get`. -/
def lookup : List (String × Nat) → String → Option Nat
  | [], _ => none
  | (k', v) :: rest, k => if k' = k then some v else lookup rest k

/-- Embedding of `App::region_count` (`src/app.rs` lines 23-34): fold the
snapshot, counting occurrences of each `region`. -/
def App.region_count (self : App) : List (String × Nat) :=
  self.server_data.foldl (fun counts server => incr counts server.region) []

/-- Embedding of `App::map_count` (`src/app.rs` lines 36-44): fold the
snapshot, counting occurrences of each `map`. -/
def App.map_count (self : App) : List (String × Nat) :=
  self.server_data.foldl (fun counts server => incr counts server.map) []

/-- Embedding of `App::player_count` (`src/app.rs` lines 46-53): fold the
snapshot summing `player_count` and `queued_player_count` independently. -/
def App.player_count (self : App) : Nat × Nat :=
  self.server_data.foldl
    (fun counts server =>
      (counts.1 + server.player_count, counts.2 + server.queued_player_count))
    (0, 0)

/-- Embedding of the inner `gamemode_to_string` of `App::gamemode_count`
(`src/app.rs` lines 56-67): seven variants get hand-authored labels, any other
variant falls back to its default textual representation. -/
def gamemode_to_string (gamemode : Gamemode) : String :=
  match gamemode with
  | .InfanteryConquest => "Infantery Conquest"
  | .TeamDeathmatch => "Team Deathmatch"
  | .CaptureTheFlag => "Capture The Flag"
  | .VoxelFortify => "Voxel Fortify"
  | .VoxelTrench => "Voxel Trench"
  | .FreeForAll => "Free For All"
  | .Gamemode19 => "Gamemode 19"
  | g => g.toString

/-- Embedding of `App::gamemode_count` (`src/app.rs` lines 55-79): fold the
snapshot, counting occurrences of each gamemode label. -/
def App.gamemode_count (self : App) : List (String × Nat) :=
  self.server_data.foldl
    (fun counts server => incr counts (gamemode_to_string server.gamemode)) []

/-- The observable outcome of one `Component::update` step: the successor
state, how many new fetches were issued during the step (`send_future` calls),
and the returned re-render flag. -/
structure StepOut where
  state : App
  fetchesIssued : Nat
  rerender : Bool
  deriving DecidableEq

/-- Embedding of `Component::update` (`src/app.rs` lines 95-125).
`UpdateData` issues exactly one asynchronous fetch and changes nothing else;
`Updated data` replaces the snapshot with `data` and arms a fresh one-shot
60000 ms timer whose callback sends `UpdateData`, superseding (dropping, hence
cancelling) any previously held handle; `UpdateFailed` does nothing. -/
def update (self : App) (msg : Msg) : StepOut :=
  match msg with
  | .UpdateData => ⟨self, 1, false⟩
  | .Updated data =>
      ⟨{ server_data := data,
         timer_handle := some ⟨60000, .UpdateData⟩ }, 0, true⟩
  | .UpdateFailed => ⟨self, 0, false⟩

/-- Embedding of `Component::create` (`src/app.rs` lines 86-93): the initial
state is the empty snapshot with no timer (the initial `UpdateData` message it
sends is a separate `update` step). -/
def create : App :=
  { server_data := [], timer_handle := none }

/-- Elapsing of the pending one-shot timer: the timer is consumed (a fired
`Timeout` is no longer pending) and its callback message is processed by
`update`.  Returns `none` when no timer is pending. -/
def elapseTimer (self : App) : Option StepOut :=
  match self.timer_handle with
  | none => none
  | some t => some (update { self with timer_handle := none } t.msg)

/-- Content-and-order model of inserting into the `BTreeMap<usize, String>`
built in `view` (`src/app.rs` lines 128-159): a key-sorted association list;
inserting an existing key replaces its value. -/
def btreeInsert (k : Nat) (v : String) : List (Nat × String) → List (Nat × String)
  | [] => [(k, v)]
  | (k', v') :: rest =>
    if k < k' then (k, v) :: (k', v') :: rest
    else if k = k' then (k, v) :: rest
    else (k', v') :: btreeInsert k v rest

/-- Collecting an iterator of `(count, label)` pairs into the
`BTreeMap<usize, String>` (the `collect` call in `view`): repeated
`btreeInsert`, later pairs overwriting earlier ones with the same count. -/
def btreeCollect (ps : List (Nat × String)) : List (Nat × String) :=
  ps.foldl (fun acc p => btreeInsert p.1 p.2 acc) []

/-- The ranking pipeline of `view` (`src/app.rs` lines 128-159), applied to an
enumeration `counts` of one of the aggregate hash maps:
`.into_iter().map(|(k,v)| (v,k)).collect::<BTreeMap<usize,String>>()
.into_iter().rev()`, i.e. swap each pair, collect into the count-keyed
`BTreeMap`, and list its entries in descending count order. -/
def ranked (counts : List (String × Nat)) : List (Nat × String) :=
  (btreeCollect (counts.map (fun p => (p.2, p.1)))).reverse

/-- The counting fold over bare keys.  Each aggregate map is this fold applied
to the snapshot's key projection (see the bridge lemmas below). -/
def countFold (m : List (String × Nat)) (l : List String) : List (String × Nat) :=
  l.foldl incr m

/-- First record of the worked example in §8 of the spec. -/
def exampleRecord1 : ServerData :=
  ⟨"EU", "Valley", Gamemode.TeamDeathmatch, 10, 2⟩

/-- Second record of the worked example in §8 of the spec. -/
def exampleRecord2 : ServerData :=
  ⟨"EU", "Valley", Gamemode.CaptureTheFlag, 5, 0⟩

/-- Third record of the worked example in §8 of the spec. -/
def exampleRecord3 : ServerData :=
  ⟨"NA", "Docks", Gamemode.TeamDeathmatch, 8, 1⟩

/-- The example snapshot of §8 of the spec, loaded into the component state. -/
def exampleApp : App :=
  ⟨[exampleRecord1, exampleRecord2, exampleRecord3], none⟩

/-- A record on map "A"; together with `tieRecordB` it produces two map labels
with the same count. -/
def tieRecordA : ServerData := ⟨"EU", "A", Gamemode.TeamDeathmatch, 0, 0⟩

/-- A record on map "B"; together with `tieRecordA` it produces two map labels
with the same count. -/
def tieRecordB : ServerData := ⟨"EU", "B", Gamemode.TeamDeathmatch, 0, 0⟩

/-! Bridge lemmas: the three aggregate maps are `countFold` on the respective
key projections of the snapshot. -/

theorem region_count_eq_countFold (a : App) :
    a.region_count = countFold [] (a.server_data.map (fun s => s.region)) := by
  simp [App.region_count, countFold, List.foldl_map]

theorem map_count_eq_countFold (a : App) :
    a.map_count = countFold [] (a.server_data.map (fun s => s.map)) := by
  simp [App.map_count, countFold, List.foldl_map]

theorem gamemode_count_eq_countFold (a : App) :
    a.gamemode_count =
      countFold []
        (a.server_data.map (fun s => gamemode_to_string s.gamemode)) := by
  simp [App.gamemode_count, countFold, List.foldl_map]

/-! C3: each counting aggregate sums to the snapshot length. -/

theorem sum_snd_incr (m : List (String × Nat)) (k : String) :
    ((incr m k).map Prod.snd).sum = (m.map Prod.snd).sum + 1 := by
  induction m with
  | nil => simp [incr]
  | cons p rest ih =>
    obtain ⟨k', v⟩ := p
    by_cases h : k' = k <;> simp [incr, h, ih] <;> omega

theorem sum_snd_countFold (l : List String) :
    ∀ m, ((countFold m l).map Prod.snd).sum = (m.map Prod.snd).sum + l.length := by
  induction l with
  | nil => intro m; simp [countFold]
  | cons a l ih =>
    intro m
    simp only [countFold, List.foldl_cons] at *
    rw [ih (incr m a), sum_snd_incr]
    simp [List.length_cons]
    omega

/-- C3: for every snapshot, the values of `region_count`, `map_count` and
`gamemode_count` each sum to the number of records in the snapshot. -/
theorem C3_counts_sum_to_length (a : App) :
    ((a.region_count.map Prod.snd).sum = a.server_data.length) ∧
    ((a.map_count.map Prod.snd).sum = a.server_data.length) ∧
    ((a.gamemode_count.map Prod.snd).sum = a.server_data.length) := by
  refine ⟨?_, ?_, ?_⟩
  · rw [region_count_eq_countFold, sum_snd_countFold]; simp
  · rw [map_count_eq_countFold, sum_snd_countFold]; simp
  · rw [gamemode_count_eq_countFold, sum_snd_countFold]; simp

/-! C2: the gamemode labeling function. -/

/-- C2 counterexample: the claim says the first hand-authored label is
"Infantry Conquest", but `gamemode_to_string` in `src/app.rs` line 58 produces
"Infantery Conquest" (matching the crate's variant name `InfanteryConquest`),
which is a different string. -/
theorem C2_counterexample :
    gamemode_to_string Gamemode.InfanteryConquest = "Infantery Conquest" ∧
    "Infantery Conquest" ≠ "Infantry Conquest" := by
  exact ⟨rfl, by decide⟩

/-- C2 (amended): the seven named variants map to the fixed labels
"Infantery Conquest", "Team Deathmatch", "Capture The Flag", "Voxel Fortify",
"Voxel Trench", "Free For All" and "Gamemode 19"; every other variant maps to
its own default textual representation; and no variant ever yields the empty
string.  (The labeling is a total function, so it cannot fail.) -/
theorem C2_gamemode_labels :
    gamemode_to_string Gamemode.InfanteryConquest = "Infantery Conquest" ∧
    gamemode_to_string Gamemode.TeamDeathmatch = "Team Deathmatch" ∧
    gamemode_to_string Gamemode.CaptureTheFlag = "Capture The Flag" ∧
    gamemode_to_string Gamemode.VoxelFortify = "Voxel Fortify" ∧
    gamemode_to_string Gamemode.VoxelTrench = "Voxel Trench" ∧
    gamemode_to_string Gamemode.FreeForAll = "Free For All" ∧
    gamemode_to_string Gamemode.Gamemode19 = "Gamemode 19" ∧
    (∀ g : Gamemode,
      g ∉ ([Gamemode.InfanteryConquest, Gamemode.TeamDeathmatch,
            Gamemode.CaptureTheFlag, Gamemode.VoxelFortify, Gamemode.VoxelTrench,
            Gamemode.FreeForAll, Gamemode.Gamemode19] : List Gamemode) →
      gamemode_to_string g = g.toString) ∧
    (∀ g : Gamemode, gamemode_to_string g ≠ "") := by
  refine ⟨rfl, rfl, rfl, rfl, rfl, rfl, rfl, ?_, ?_⟩ <;> intro g <;> cases g <;> decide

/-- Witness for C2: the fallback clause evaluated at the concrete non-special
variant `Domination`. -/
theorem C2_gamemode_labels_witness :
    gamemode_to_string Gamemode.Domination = Gamemode.toString Gamemode.Domination ∧
    gamemode_to_string Gamemode.Domination ≠ "" :=
  ⟨C2_gamemode_labels.2.2.2.2.2.2.2.1 Gamemode.Domination (by decide),
   C2_gamemode_labels.2.2.2.2.2.2.2.2 Gamemode.Domination⟩

/-! C4 and C5: the update state machine. -/

/-- C4: the `UpdateFailed` transition leaves the whole state (snapshot and
timer handle) unchanged, issues no fetch, and requests no re-render. -/
theorem C4_update_failed_keeps_state (s : App) :
    update s Msg.UpdateFailed = ⟨s, 0, false⟩ := rfl

/-- C5: the `Updated data` transition replaces the snapshot wholesale by
`data`, arms exactly one fresh one-shot 60000 ms timer carrying `UpdateData`
(the `timer_handle` field holds at most one timer, and the assignment drops —
hence cancels — any previous one), and issues no fetch itself; when that timer
elapses, exactly one new fetch is issued and no timer remains pending. -/
theorem C5_update_success (s : App) (data : List ServerData) :
    (update s (Msg.Updated data)).state.server_data = data ∧
    (update s (Msg.Updated data)).state.timer_handle =
      some ⟨60000, Msg.UpdateData⟩ ∧
    (update s (Msg.Updated data)).fetchesIssued = 0 ∧
    elapseTimer (update s (Msg.Updated data)).state =
      some ⟨⟨data, none⟩, 1, false⟩ :=
  ⟨rfl, rfl, rfl, rfl⟩

/-! C6 and C7: player totals and the empty snapshot. -/

theorem player_count_foldl (l : List ServerData) (p : Nat × Nat) :
    l.foldl (fun counts server =>
      (counts.1 + server.player_count, counts.2 + server.queued_player_count)) p =
    (p.1 + (l.map (fun s => s.player_count)).sum,
     p.2 + (l.map (fun s => s.queued_player_count)).sum) := by
  induction l generalizing p with
  | nil => simp
  | cons a l ih =>
    simp only [List.foldl_cons, ih, List.map_cons, List.sum_cons, Prod.mk.injEq]
    omega

/-- C6: `player_count` of the empty snapshot is `(0, 0)`, and `player_count`
is additive over concatenation of snapshots, element-wise. -/
theorem C6_player_count_additive :
    (App.mk [] none).player_count = (0, 0) ∧
    ∀ (a b : List ServerData) (t : Option Timeout),
      (App.mk (a ++ b) t).player_count =
        ((App.mk a t).player_count.1 + (App.mk b t).player_count.1,
         (App.mk a t).player_count.2 + (App.mk b t).player_count.2) := by
  refine ⟨rfl, ?_⟩
  intro a b t
  simp only [App.player_count, player_count_foldl, List.map_append,
    List.sum_append, Prod.mk.injEq]
  omega

/-- C7: on the empty snapshot (whatever the timer state), the three counting
aggregates return the empty mapping and `player_count` returns `(0, 0)`.  All
four operations are total Lean functions over arbitrary snapshots, so none of
them can fail. -/
theorem C7_empty_snapshot (t : Option Timeout) :
    (App.mk [] t).region_count = [] ∧
    (App.mk [] t).map_count = [] ∧
    (App.mk [] t).gamemode_count = [] ∧
    (App.mk [] t).player_count = (0, 0) :=
  ⟨rfl, rfl, rfl, rfl⟩

/-! Lookup characterization of the counting folds, used for the
permutation-invariance claims. -/

theorem lookup_incr (m : List (String × Nat)) (k k' : String) :
    lookup (incr m k) k' =
      if k = k' then some ((lookup m k).getD 0 + 1) else lookup m k' := by
  induction m with
  | nil => by_cases h : k = k' <;> simp [incr, lookup, h]
  | cons p rest ih =>
    obtain ⟨k₀, v⟩ := p
    by_cases h₀ : k₀ = k
    · subst h₀
      by_cases h : k₀ = k' <;> simp [incr, lookup, h]
    · by_cases h : k₀ = k'
      · subst h
        have hkk : ¬k = k₀ := fun hc => h₀ hc.symm
        simp [incr, lookup, h₀, hkk]
      · simp [incr, lookup, h₀, h, ih]

theorem lookup_countFold (l : List String) :
    ∀ (m : List (String × Nat)) (k : String),
      lookup (countFold m l) k =
        match lookup m k with
        | some v => some (v + l.count k)
        | none => if l.count k = 0 then none else some (l.count k) := by
  induction l with
  | nil =>
    intro m k
    cases h : lookup m k <;> simp [countFold, h]
  | cons a l ih =>
    intro m k
    simp only [countFold, List.foldl_cons] at ih ⊢
    rw [ih (incr m a) k, lookup_incr]
    by_cases hak : a = k
    · subst hak
      simp only [if_pos rfl, List.count_cons, beq_self_eq_true, if_pos]
      cases h : lookup m a <;> simp [h] <;> omega
    · have hka : ¬(k == a) = true := by simpa using fun hc => hak hc.symm
      cases h : lookup m k <;> simp [h, hak, List.count_cons, hka]

theorem lookup_countFold_nil (l : List String) (k : String) :
    lookup (countFold [] l) k =
      if l.count k = 0 then none else some (l.count k) := by
  rw [lookup_countFold]
  rfl

/-- C8: the four aggregate operations are permutation-invariant: reordering
the snapshot's records changes none of the three count mappings (pointwise
equal lookups) and not the player totals.  (The operations are pure functions
of the snapshot in this embedding, so they mutate nothing.) -/
theorem C8_aggregates_permutation_invariant (a a' : App)
    (h : a.server_data.Perm a'.server_data) :
    (∀ k, lookup a.region_count k = lookup a'.region_count k) ∧
    (∀ k, lookup a.map_count k = lookup a'.map_count k) ∧
    (∀ k, lookup a.gamemode_count k = lookup a'.gamemode_count k) ∧
    a.player_count = a'.player_count := by
  refine ⟨?_, ?_, ?_, ?_⟩
  · intro k
    rw [region_count_eq_countFold, region_count_eq_countFold,
      lookup_countFold_nil, lookup_countFold_nil,
      (h.map (fun s => s.region)).count_eq]
  · intro k
    rw [map_count_eq_countFold, map_count_eq_countFold,
      lookup_countFold_nil, lookup_countFold_nil,
      (h.map (fun s => s.map)).count_eq]
  · intro k
    rw [gamemode_count_eq_countFold, gamemode_count_eq_countFold,
      lookup_countFold_nil, lookup_countFold_nil,
      (h.map (fun s => gamemode_to_string s.gamemode)).count_eq]
  · simp only [App.player_count, player_count_foldl]
    rw [(h.map (fun s => s.player_count)).sum_eq,
      (h.map (fun s => s.queued_player_count)).sum_eq]

/-- Witness for C8: a concrete two-record snapshot and its reversal. -/
theorem C8_aggregates_permutation_invariant_witness :
    (App.mk [tieRecordA, tieRecordB] none).server_data.Perm
      (App.mk [tieRecordB, tieRecordA] none).server_data ∧
    lookup (App.mk [tieRecordA, tieRecordB] none).region_count "EU" =
      lookup (App.mk [tieRecordB, tieRecordA] none).region_count "EU" ∧
    (App.mk [tieRecordA, tieRecordB] none).player_count =
      (App.mk [tieRecordB, tieRecordA] none).player_count :=
  have hp : (App.mk [tieRecordA, tieRecordB] none).server_data.Perm
      (App.mk [tieRecordB, tieRecordA] none).server_data := by decide
  ⟨hp, (C8_aggregates_permutation_invariant _ _ hp).1 "EU",
    (C8_aggregates_permutation_invariant _ _ hp).2.2.2⟩

/-! Structure of the count-keyed `BTreeMap` built in `view`. -/

/-- The strict key order of the count-keyed `BTreeMap` entries. -/
def keyLT (p q : Nat × String) : Prop := p.1 < q.1

instance : IsAntisymm (Nat × String) keyLT :=
  ⟨fun _ _ h h' => absurd (lt_trans h h') (lt_irrefl _)⟩

theorem mem_btreeInsert (k : Nat) (v : String) :
    ∀ (b : List (Nat × String)) (q : Nat × String),
      q ∈ btreeInsert k v b → q = (k, v) ∨ q ∈ b := by
  intro b
  induction b with
  | nil => intro q h; simpa [btreeInsert] using h
  | cons p rest ih =>
    intro q h
    obtain ⟨k', v'⟩ := p
    by_cases h1 : k < k'
    · simp only [btreeInsert, if_pos h1, List.mem_cons] at h ⊢
      tauto
    · by_cases h2 : k = k'
      · simp only [btreeInsert, if_neg h1, if_pos h2, List.mem_cons] at h ⊢
        tauto
      · simp only [btreeInsert, if_neg h1, if_neg h2, List.mem_cons] at h ⊢
        rcases h with h | h
        · tauto
        · rcases ih q h with h' | h' <;> tauto

theorem mem_keys_btreeInsert (k : Nat) (v : String) (b : List (Nat × String))
    (c : Nat) : c ∈ (btreeInsert k v b).map Prod.fst ↔ c = k ∨ c ∈ b.map Prod.fst := by
  induction b with
  | nil => simp [btreeInsert]
  | cons p rest ih =>
    obtain ⟨k', v'⟩ := p
    by_cases h1 : k < k'
    · simp only [btreeInsert, if_pos h1, List.map_cons, List.mem_cons]
    · by_cases h2 : k = k'
      · simp only [btreeInsert, if_neg h1, if_pos h2, List.map_cons, List.mem_cons]
        subst h2
        tauto
      · simp only [btreeInsert, if_neg h1, if_neg h2, List.map_cons, List.mem_cons, ih]
        tauto

theorem sorted_btreeInsert (k : Nat) (v : String) :
    ∀ b : List (Nat × String), b.Sorted keyLT → (btreeInsert k v b).Sorted keyLT := by
  intro b
  induction b with
  | nil => intro _; simp [btreeInsert, keyLT]
  | cons p rest ih =>
    intro hb
    obtain ⟨k', v'⟩ := p
    rw [List.sorted_cons] at hb
    obtain ⟨hall, hrest⟩ := hb
    by_cases h1 : k < k'
    · simp only [btreeInsert, if_pos h1]
      rw [List.sorted_cons]
      refine ⟨?_, ?_⟩
      · intro q hq
        rcases List.mem_cons.mp hq with rfl | hq'
        · exact h1
        · exact lt_trans h1 (hall q hq')
      · rw [List.sorted_cons]
        exact ⟨hall, hrest⟩
    · by_cases h2 : k = k'
      · simp only [btreeInsert, if_neg h1, if_pos h2]
        rw [List.sorted_cons]
        subst h2
        exact ⟨hall, hrest⟩
      · have hk' : k' < k := Nat.lt_of_le_of_ne (Nat.le_of_not_lt h1) (Ne.symm h2)
        simp only [btreeInsert, if_neg h1, if_neg h2]
        rw [List.sorted_cons]
        refine ⟨?_, ih hrest⟩
        intro q hq
        rcases mem_btreeInsert _ _ _ _ hq with rfl | hq'
        · exact hk'
        · exact hall q hq'

theorem sorted_btreeFold (ps : List (Nat × String)) :
    ∀ b, b.Sorted keyLT →
      (ps.foldl (fun acc p => btreeInsert p.1 p.2 acc) b).Sorted keyLT := by
  induction ps with
  | nil => intro b hb; simpa using hb
  | cons p rest ih =>
    intro b hb
    simp only [List.foldl_cons]
    exact ih _ (sorted_btreeInsert _ _ _ hb)

theorem sorted_btreeCollect (ps : List (Nat × String)) :
    (btreeCollect ps).Sorted keyLT :=
  sorted_btreeFold ps [] (by simp)

theorem nodup_keys_btreeCollect (ps : List (Nat × String)) :
    ((btreeCollect ps).map Prod.fst).Nodup := by
  have hs := sorted_btreeCollect ps
  have hpw : ((btreeCollect ps).map Prod.fst).Pairwise (· < ·) := by
    rw [List.pairwise_map]
    exact hs
  exact hpw.imp (fun h => Nat.ne_of_lt h)

theorem mem_keys_btreeFold (ps : List (Nat × String)) :
    ∀ b c, (c ∈ (ps.foldl (fun acc p => btreeInsert p.1 p.2 acc) b).map Prod.fst) ↔
      c ∈ ps.map Prod.fst ∨ c ∈ b.map Prod.fst := by
  induction ps with
  | nil => intro b c; simp
  | cons p rest ih =>
    intro b c
    simp only [List.foldl_cons, List.map_cons, List.mem_cons]
    rw [ih, mem_keys_btreeInsert]
    tauto

theorem mem_btreeFold (ps : List (Nat × String)) :
    ∀ b q, q ∈ ps.foldl (fun acc p => btreeInsert p.1 p.2 acc) b →
      q ∈ ps ∨ q ∈ b := by
  induction ps with
  | nil => intro b q h; exact Or.inr h
  | cons p rest ih =>
    intro b q h
    simp only [List.foldl_cons] at h
    rcases ih _ _ h with h' | h'
    · exact Or.inl (List.mem_cons_of_mem _ h')
    · rcases mem_btreeInsert _ _ _ _ h' with rfl | h''
      · exact Or.inl (List.mem_cons_self _ _)
      · exact Or.inr h''

theorem btreeInsert_perm (k : Nat) (v : String) (b : List (Nat × String))
    (h : k ∉ b.map Prod.fst) : (btreeInsert k v b).Perm ((k, v) :: b) := by
  induction b with
  | nil => simp [btreeInsert]
  | cons p rest ih =>
    obtain ⟨k', v'⟩ := p
    simp only [List.map_cons, List.mem_cons] at h
    push_neg at h
    obtain ⟨hne, hrest⟩ := h
    by_cases h1 : k < k'
    · simp [btreeInsert, h1]
    · simp only [btreeInsert, if_neg h1, if_neg hne]
      exact ((ih hrest).cons _).trans (List.Perm.swap _ _ _)

theorem btreeFold_perm (ps : List (Nat × String)) :
    ∀ b, (ps.map Prod.fst).Nodup →
      (∀ c ∈ ps.map Prod.fst, c ∉ b.map Prod.fst) →
      (ps.foldl (fun acc p => btreeInsert p.1 p.2 acc) b).Perm (ps ++ b) := by
  induction ps with
  | nil => intro b _ _; simp
  | cons p rest ih =>
    intro b hnd hdisj
    simp only [List.map_cons, List.nodup_cons] at hnd
    obtain ⟨hp, hrestnd⟩ := hnd
    simp only [List.foldl_cons]
    have hmem : p.1 ∉ b.map Prod.fst := hdisj p.1 (by simp)
    have hins : (btreeInsert p.1 p.2 b).Perm ((p.1, p.2) :: b) :=
      btreeInsert_perm _ _ _ hmem
    have hdisj' : ∀ c ∈ rest.map Prod.fst,
        c ∉ (btreeInsert p.1 p.2 b).map Prod.fst := by
      intro c hc
      rw [mem_keys_btreeInsert]
      push_neg
      exact ⟨fun heq => hp (heq ▸ hc), hdisj c (by simp [hc])⟩
    have hfold := ih (btreeInsert p.1 p.2 b) hrestnd hdisj'
    have hstep : (rest ++ btreeInsert p.1 p.2 b).Perm (rest ++ (p.1, p.2) :: b) :=
      List.Perm.append_left rest hins
    have hmid : (rest ++ (p.1, p.2) :: b).Perm ((p.1, p.2) :: (rest ++ b)) :=
      @List.perm_middle _ (p.1, p.2) rest b
    exact (hfold.trans (hstep.trans hmid))

theorem btreeCollect_perm (ps : List (Nat × String))
    (h : (ps.map Prod.fst).Nodup) : (btreeCollect ps).Perm ps := by
  have hfold := btreeFold_perm ps [] h (by simp)
  simpa using hfold

theorem ranked_eq_of_perm (ps qs : List (String × Nat)) (hperm : ps.Perm qs)
    (hnd : (ps.map Prod.snd).Nodup) : ranked ps = ranked qs := by
  have hps : ((ps.map (fun p => (p.2, p.1))).map Prod.fst).Nodup := by
    simpa [List.map_map, Function.comp] using hnd
  have hqs : ((qs.map (fun p => (p.2, p.1))).map Prod.fst).Nodup := by
    have hq : (qs.map Prod.snd).Nodup := (hperm.map Prod.snd).nodup hnd
    simpa [List.map_map, Function.comp] using hq
  have h1 := btreeCollect_perm _ hps
  have h2 := btreeCollect_perm _ hqs
  have hmid : (ps.map (fun p => (p.2, p.1))).Perm (qs.map (fun p => (p.2, p.1))) :=
    hperm.map _
  have hcoll : (btreeCollect (ps.map (fun p => (p.2, p.1)))).Perm
      (btreeCollect (qs.map (fun p => (p.2, p.1)))) :=
    (h1.trans hmid).trans h2.symm
  have heq := List.eq_of_perm_of_sorted hcoll (sorted_btreeCollect _)
    (sorted_btreeCollect _)
  rw [ranked, ranked, heq]

/-! Remaining ingredient for C1: permutations of the snapshot permute the
aggregate association lists (same key set, same counts). -/

theorem lookup_eq_none_iff (m : List (String × Nat)) (k : String) :
    lookup m k = none ↔ k ∉ m.map Prod.fst := by
  induction m with
  | nil => simp [lookup]
  | cons p rest ih =>
    obtain ⟨k₀, v⟩ := p
    by_cases h : k₀ = k
    · subst h; simp [lookup]
    · have h' : ¬k = k₀ := fun hc => h hc.symm
      simp only [lookup, if_neg h, ih, List.map_cons, List.mem_cons, not_or]
      exact ⟨fun hn => ⟨h', hn⟩, fun hx => hx.2⟩

theorem keys_incr (m : List (String × Nat)) (k : String) :
    (incr m k).map Prod.fst =
      if k ∈ m.map Prod.fst then m.map Prod.fst else m.map Prod.fst ++ [k] := by
  induction m with
  | nil => simp [incr]
  | cons p rest ih =>
    obtain ⟨k₀, v⟩ := p
    by_cases h : k₀ = k
    · subst h; simp [incr]
    · have hne : ¬k = k₀ := fun hc => h hc.symm
      simp only [incr, if_neg h, List.map_cons, ih, List.mem_cons, hne, false_or]
      by_cases hm : k ∈ rest.map Prod.fst <;> simp [hm]

theorem nodup_keys_incr (m : List (String × Nat)) (k : String)
    (h : (m.map Prod.fst).Nodup) : ((incr m k).map Prod.fst).Nodup := by
  rw [keys_incr]
  by_cases hm : k ∈ m.map Prod.fst
  · simpa [hm] using h
  · simp [hm, List.nodup_append, h]

theorem nodup_keys_countFold (l : List String) :
    ∀ m, (m.map Prod.fst).Nodup → ((countFold m l).map Prod.fst).Nodup := by
  induction l with
  | nil => intro m h; simpa [countFold] using h
  | cons a l ih =>
    intro m h
    simp only [countFold, List.foldl_cons] at ih ⊢
    exact ih _ (nodup_keys_incr _ _ h)

theorem lookup_some_split (m : List (String × Nat)) (k : String) (v : Nat)
    (h : lookup m k = some v) : ∃ l1 l2, m = l1 ++ (k, v) :: l2 := by
  induction m with
  | nil => simp [lookup] at h
  | cons p rest ih =>
    obtain ⟨k₀, v₀⟩ := p
    by_cases hk : k₀ = k
    · simp only [lookup, if_pos hk, Option.some.injEq] at h
      refine ⟨[], rest, ?_⟩
      rw [hk, h]
      rfl
    · simp only [lookup, if_neg hk] at h
      obtain ⟨l1, l2, rfl⟩ := ih h
      exact ⟨(k₀, v₀) :: l1, l2, rfl⟩

theorem lookup_append_skip (l1 : List (String × Nat)) (k k' : String) (v : Nat)
    (l2 : List (String × Nat)) (h : ¬k = k') :
    lookup (l1 ++ (k, v) :: l2) k' = lookup (l1 ++ l2) k' := by
  induction l1 with
  | nil => simp [lookup, h]
  | cons p rest ih =>
    obtain ⟨k₀, v₀⟩ := p
    by_cases h₀ : k₀ = k' <;> simp [lookup, h₀, ih]

theorem perm_of_lookup_eq :
    ∀ (m m' : List (String × Nat)), (m.map Prod.fst).Nodup →
      (m'.map Prod.fst).Nodup → (∀ k, lookup m k = lookup m' k) → m.Perm m' := by
  intro m
  induction m with
  | nil =>
    intro m' _ _ hl
    cases m' with
    | nil => exact List.Perm.refl _
    | cons p rest =>
      exfalso
      obtain ⟨k, v⟩ := p
      have hk := hl k
      simp [lookup] at hk
  | cons p rest ih =>
    intro m' hnd hnd' hl
    obtain ⟨k, v⟩ := p
    have hk : lookup m' k = some v := by
      have hx := hl k
      simpa [lookup] using hx.symm
    obtain ⟨l1, l2, rfl⟩ := lookup_some_split m' k v hk
    simp only [List.map_cons, List.nodup_cons] at hnd
    obtain ⟨hkrest, hrestnd⟩ := hnd
    have hkeys : (l1.map Prod.fst ++ k :: l2.map Prod.fst).Nodup := by
      simpa using hnd'
    have hkl1 : k ∉ l1.map Prod.fst := by
      intro hmem
      have hdis := (List.nodup_append.mp hkeys).2.2
      exact hdis hmem (List.mem_cons_self _ _)
    have hkl2 : k ∉ l2.map Prod.fst :=
      (List.nodup_cons.mp (List.nodup_append.mp hkeys).2.1).1
    have hsub : List.Sublist (l1 ++ l2) (l1 ++ (k, v) :: l2) :=
      (List.sublist_cons_self _ _).append_left l1
    have hnd'' : ((l1 ++ l2).map Prod.fst).Nodup :=
      List.Nodup.sublist (hsub.map Prod.fst) hnd'
    have hrest : ∀ k', lookup rest k' = lookup (l1 ++ l2) k' := by
      intro k'
      by_cases hkk : k = k'
      · subst hkk
        rw [(lookup_eq_none_iff rest k).mpr hkrest,
          (lookup_eq_none_iff (l1 ++ l2) k).mpr]
        simp only [List.map_append, List.mem_append]
        push_neg
        exact ⟨hkl1, hkl2⟩
      · have h1 := hl k'
        simp only [lookup, if_neg hkk] at h1
        rw [h1, lookup_append_skip l1 k k' v l2 hkk]
    have hperm := ih (l1 ++ l2) hrestnd hnd'' hrest
    exact (hperm.cons (k, v)).trans (@List.perm_middle _ (k, v) l1 l2).symm

theorem countFold_perm_of_perm (f : ServerData → String)
    (sd sd' : List ServerData) (h : sd.Perm sd') :
    (countFold [] (sd.map f)).Perm (countFold [] (sd'.map f)) := by
  apply perm_of_lookup_eq
  · exact nodup_keys_countFold _ [] (by simp)
  · exact nodup_keys_countFold _ [] (by simp)
  · intro k
    rw [lookup_countFold_nil, lookup_countFold_nil, (h.map f).count_eq]

/-- C1 counterexample: two snapshots holding the same multiset of records (the
same two records, inserted in the two possible orders) for which the maps
ranking produced by the `view` pipeline differs.  Both records have count 1,
and the count-keyed `BTreeMap` keeps only the label that is inserted last, so
the displayed list is `[(1, "B")]` for one snapshot and `[(1, "A")]` for the
other. -/
theorem C1_counterexample :
    (App.mk [tieRecordA, tieRecordB] none).server_data.Perm
      (App.mk [tieRecordB, tieRecordA] none).server_data ∧
    ranked (App.mk [tieRecordA, tieRecordB] none).map_count ≠
      ranked (App.mk [tieRecordB, tieRecordA] none).map_count := by
  decide

/-- C1 (amended): the display ranking is deterministic for snapshots whose
labels have pairwise distinct counts: for every two snapshots containing the
same multiset of records, if no two labels share a count, the
descending-by-count orderings produced for the maps, gamemodes and regions
lists are identical.  (When two labels share a count they do not reorder: only
one of the two appears at all, and which one depends on the enumeration order
of the hash map — see the counterexample and C10.) -/
theorem C1_ranking_deterministic (a a' : App)
    (hperm : a.server_data.Perm a'.server_data)
    (hm : (a.map_count.map Prod.snd).Nodup)
    (hg : (a.gamemode_count.map Prod.snd).Nodup)
    (hr : (a.region_count.map Prod.snd).Nodup) :
    ranked a.map_count = ranked a'.map_count ∧
    ranked a.gamemode_count = ranked a'.gamemode_count ∧
    ranked a.region_count = ranked a'.region_count := by
  refine ⟨?_, ?_, ?_⟩
  · refine ranked_eq_of_perm _ _ ?_ hm
    rw [map_count_eq_countFold, map_count_eq_countFold]
    exact countFold_perm_of_perm _ _ _ hperm
  · refine ranked_eq_of_perm _ _ ?_ hg
    rw [gamemode_count_eq_countFold, gamemode_count_eq_countFold]
    exact countFold_perm_of_perm _ _ _ hperm
  · refine ranked_eq_of_perm _ _ ?_ hr
    rw [region_count_eq_countFold, region_count_eq_countFold]
    exact countFold_perm_of_perm _ _ _ hperm

/-- Witness for C1 (amended): the worked example snapshot against a rotation
of itself; all three aggregates have pairwise distinct counts there. -/
theorem C1_ranking_deterministic_witness :
    (exampleApp.server_data.Perm
      (App.mk [exampleRecord3, exampleRecord1, exampleRecord2] none).server_data) ∧
    (exampleApp.map_count.map Prod.snd).Nodup ∧
    (exampleApp.gamemode_count.map Prod.snd).Nodup ∧
    (exampleApp.region_count.map Prod.snd).Nodup ∧
    ranked exampleApp.map_count =
      ranked (App.mk [exampleRecord3, exampleRecord1, exampleRecord2] none).map_count :=
  have hp : exampleApp.server_data.Perm
      (App.mk [exampleRecord3, exampleRecord1, exampleRecord2] none).server_data := by
    decide
  ⟨hp, by decide, by decide, by decide,
    (C1_ranking_deterministic exampleApp _ hp (by decide) (by decide) (by decide)).1⟩

/-- C10: in each rendered ranked list (maps, gamemodes, regions), at most one
entry is displayed per distinct count value — the displayed counts are
pairwise distinct — while every count value occurring in the aggregate mapping
is displayed; hence when two distinct labels share a count, all but one of
them are dropped.  Every displayed pair does come from the aggregate
mapping. -/
theorem C10_one_entry_per_count (a : App) :
    (((ranked a.map_count).map Prod.fst).Nodup ∧
      (∀ c, c ∈ (ranked a.map_count).map Prod.fst ↔
        c ∈ a.map_count.map Prod.snd) ∧
      (∀ p ∈ ranked a.map_count, (p.2, p.1) ∈ a.map_count)) ∧
    (((ranked a.gamemode_count).map Prod.fst).Nodup ∧
      (∀ c, c ∈ (ranked a.gamemode_count).map Prod.fst ↔
        c ∈ a.gamemode_count.map Prod.snd) ∧
      (∀ p ∈ ranked a.gamemode_count, (p.2, p.1) ∈ a.gamemode_count)) ∧
    (((ranked a.region_count).map Prod.fst).Nodup ∧
      (∀ c, c ∈ (ranked a.region_count).map Prod.fst ↔
        c ∈ a.region_count.map Prod.snd) ∧
      (∀ p ∈ ranked a.region_count, (p.2, p.1) ∈ a.region_count)) := by
  refine ⟨⟨?_, ?_, ?_⟩, ⟨?_, ?_, ?_⟩, ⟨?_, ?_, ?_⟩⟩ <;>
    first
    | (rw [ranked, List.map_reverse, List.nodup_reverse]
       exact nodup_keys_btreeCollect _)
    | (intro c
       rw [ranked, List.map_reverse, List.mem_reverse, btreeCollect,
         mem_keys_btreeFold]
       simp [List.map_map, Function.comp])
    | (intro p hp
       rw [ranked, List.mem_reverse, btreeCollect] at hp
       rcases mem_btreeFold _ _ _ hp with h | h
       · obtain ⟨q, hq, rfl⟩ := List.mem_map.mp h
         simpa using hq
       · simp at h)

/-- Witness for C10: on the worked example snapshot, the displayed maps entry
`(2, "Valley")` indeed comes from the aggregate mapping. -/
theorem C10_one_entry_per_count_witness :
    ((2 : Nat), "Valley") ∈ ranked exampleApp.map_count ∧
    ("Valley", (2 : Nat)) ∈ exampleApp.map_count :=
  have hmem : ((2 : Nat), "Valley") ∈ ranked exampleApp.map_count := by decide
  ⟨hmem, (C10_one_entry_per_count exampleApp).1.2.2 (2, "Valley") hmem⟩

/-- C9: on the spec's worked example snapshot, `region_count` is
`{EU: 2, NA: 1}`, `map_count` is `{Valley: 2, Docks: 1}`, `gamemode_count` is
`{Team Deathmatch: 2, Capture The Flag: 1}`, and `player_count` is
`(23, 3)`. -/
theorem C9_worked_example :
    exampleApp.region_count = [("EU", 2), ("NA", 1)] ∧
    exampleApp.map_count = [("Valley", 2), ("Docks", 1)] ∧
    exampleApp.gamemode_count = [("Team Deathmatch", 2), ("Capture The Flag", 1)] ∧
    exampleApp.player_count = (23, 3) := by
  decide

end BattlebitStats
